import Mathlib

/-!
Verification of the DelegatedRingCT consensus core against its specification.

The development shallowly embeds the Rust sources:
  * `primary/src/proposer.rs` — the proposer loop, `process_header`, `process_vote`,
    `make_header`;
  * `primary/src/aggregators.rs` — `VotesAggregator::append`;
  * `worker/src/worker.rs` — channel capacity and the three network receiver handlers;
  * `worker/src/batch_maker.rs` — the `seal` operation.

Modules of this repository that the sources reference but whose files are not
available (`primary/src/election.rs`, `primary/src/messages.rs`,
`primary/src/constants.rs`, and the `config` crate) are modelled from the
specification; each such definition carries a doc comment starting with
`Modelled from the spec:`.

Conventions: Rust `HashMap`/`BTreeMap` values become association lists
(`List (K × V)`) with lookup/update helpers; `BTreeSet` becomes a
duplicate-free list; machine integers are `Nat` (no arithmetic in the
embedded code paths overflows `u64` on the inputs considered); a Rust panic
is recorded as a `panic` flag in the step result together with the state and
the messages emitted up to the panic point.
-/

/-- Lookup in an association list (embeds Rust `HashMap::get`). -/
def alookup {K V : Type} [DecidableEq K] : List (K × V) → K → Option V
  | [], _ => none
  | (k', v) :: rest, k => if k = k' then some v else alookup rest k

/-- Insert-or-replace in an association list (embeds Rust `HashMap::insert`). -/
def aupsert {K V : Type} [DecidableEq K] : List (K × V) → K → V → List (K × V)
  | [], k, v => [(k, v)]
  | (k', v') :: rest, k, v =>
      if k = k' then (k, v) :: rest else (k', v') :: aupsert rest k v

/-- Remove a key from an association list (embeds Rust `HashMap::remove`). -/
def aerase {K V : Type} [DecidableEq K] : List (K × V) → K → List (K × V)
  | [], _ => []
  | (k', v') :: rest, k => if k = k' then rest else (k', v') :: aerase rest k

/-- Set-insert into a duplicate-free list (embeds Rust `BTreeSet::insert`). -/
def sinsert {A : Type} [DecidableEq A] (a : A) (l : List A) : List A :=
  if a ∈ l then l else l ++ [a]

/-- Authority public key (`crypto::PublicKey`), abstracted to a number. -/
abbrev PublicKey := Nat

/-- A 32-byte content hash (`crypto::Digest`), abstracted to a number. -/
abbrev Digest := Nat

/-- The primary round number (`primary::Round`, a Rust `u64`). -/
abbrev Round := Nat

/-- Transaction hash: `pub type TxHash = Digest` in `proposer.rs`. -/
abbrev TxHash := Digest

/-- Election identifier (`election::ElectionId`, a digest). -/
abbrev ElectionId := Digest

/-- Modelled from the spec: `primary/src/messages.rs` is not under `src/`.
Spec section 6 gives
`Vote ::= { round, tx_hash, election_id, proposal_round, commit, author, header_id, signature }`;
the field list matches every `Vote::new` call in `proposer.rs`. The signature
is produced by the external signing oracle and is omitted. -/
structure Vote where
  round : Round
  tx_hash : TxHash
  election_id : ElectionId
  proposal_round : Round
  commit : Bool
  author : PublicKey
  header_id : Digest
deriving DecidableEq, Repr

/-- Modelled from the spec: `primary/src/messages.rs` is not under `src/`.
Spec section 6 gives `Header ::= { round, author, proposals, id, signature }`;
`proposer.rs` accesses the proposal list as `header.votes`, so that field name
is kept. The signature is produced by the external signing oracle and is
omitted; the id is assigned by the external hashing oracle. -/
structure Header where
  round : Round
  author : PublicKey
  votes : List (TxHash × ElectionId)
  id : Digest
deriving DecidableEq, Repr

/-- Modelled from the spec: `primary/src/election.rs` is not under `src/`.
Spec section 4.5: each tally has a per-round timer, `Running` latching to
`Expired` after a configured interval. -/
inductive TimerState where
  | Running
  | Expired
deriving DecidableEq, Repr

/-- Modelled from the spec: `primary/src/election.rs` is not under `src/`.
Spec section 4.5: per vote-round tally of `author → (tx_hash, commit_bit)`
with at most one entry per author, plus the round timer. -/
structure Tally where
  votes : List (PublicKey × (TxHash × Bool))
  timer : TimerState
deriving DecidableEq, Repr

/-- Modelled from the spec: a fresh tally, created lazily on the first vote of
its round, with its timer running. -/
def Tally.new : Tally := ⟨[], TimerState.Running⟩

/-- Modelled from the spec: `primary/src/election.rs` is not under `src/`.
Spec section 3 entity table: an `Election` holds a map from vote round to
`Tally`, the highest-known tx hash, an optional `commit` tx hash with its
`proof_round`, and the `decided` flag. -/
structure Election where
  tallies : List (Round × Tally)
  decided : Bool
  commit : Option TxHash
  proof_round : Option Round
  highest : Option TxHash
deriving DecidableEq, Repr

/-- Modelled from the spec: `Election::new()` (called in `process_header`)
starts with no tallies, undecided and with no commit. -/
def Election.new : Election := ⟨[], false, none, none, none⟩

/-- Modelled from the spec: consensus configuration. `stake` embeds the
committee stake map of the `config` crate (not under `src/`); `quorum` and
`numNodes` embed the constants `QUORUM` and `NUMBER_OF_NODES` of
`primary/src/constants.rs` (not under `src/`); spec section 3 sets
`quorum = 2f+1` over `numNodes = N` authorities. `hashHeader` embeds the
external hashing oracle assigning ids to fresh headers. -/
structure Config where
  stake : PublicKey → Nat
  quorum : Nat
  numNodes : Nat
  hashHeader : Round → PublicKey → List (TxHash × ElectionId) → Digest

/-- Modelled from the spec: `Election::insert_vote` (election.rs missing).
Spec section 4.5: insert the vote into the tally of `v.round` (created lazily),
replacing any earlier vote by the same author at that round, and track the
highest tx hash seen for the election (spec rule 3: highest-ranked, with a
deterministic order on hashes). -/
def Election.insert_vote (E : Election) (v : Vote) : Election :=
  let t := match alookup E.tallies v.round with
    | some t => t
    | none => Tally.new
  { E with
    tallies := aupsert E.tallies v.round
      { t with votes := aupsert t.votes v.author (v.tx_hash, v.commit) }
    highest := some (match E.highest with
      | none => v.tx_hash
      | some h => max h v.tx_hash) }

/-- Modelled from the spec: stake voting in this tally for `(x, c)`; spec
section 4.5 sums stake over the (distinct) authors of the tally. -/
def Tally.stakeFor (cfg : Config) (t : Tally) (x : TxHash) (c : Bool) : Nat :=
  ((t.votes.filter (fun p => p.2.1 = x && p.2.2 = c)).map (fun p => cfg.stake p.1)).sum

/-- Modelled from the spec: `total_votes(r) = Σ stake(author)` over the
distinct authors of the round tally (spec section 4.5). -/
def Tally.total_votes (cfg : Config) (t : Tally) : Nat :=
  (t.votes.map (fun p => cfg.stake p.1)).sum

/-- Modelled from the spec: `Tally::find_quorum_of_votes` (election.rs
missing). Spec section 4.5: `quorum_of_votes(r, x)` holds when the stake of
authors voting non-commit for `x` reaches `2f+1`; the function returns such an
`x` when one exists. -/
def Tally.find_quorum_of_votes (cfg : Config) (t : Tally) : Option TxHash :=
  (t.votes.map (fun p => p.2.1)).find? (fun x => cfg.quorum ≤ t.stakeFor cfg x false)

/-- Modelled from the spec: one round of `Election::find_quorum_of_commits`.
Returns a tx hash whose commit-voting stake in this tally reaches `2f+1`. -/
def Tally.find_quorum_of_commits (cfg : Config) (t : Tally) : Option TxHash :=
  (t.votes.map (fun p => p.2.1)).find? (fun x => cfg.quorum ≤ t.stakeFor cfg x true)

/-- Modelled from the spec: `Election::find_quorum_of_commits` (election.rs
missing; `process_vote` calls it on the whole election with no round
argument). Spec section 4.5: `quorum_of_commits(r, x)` holds when the stake of
authors voting commit for `x` at round `r` reaches `2f+1`; the method scans
the election's tallies and returns such an `x` when one exists. -/
def Election.find_quorum_of_commits (cfg : Config) (E : Election) : Option TxHash :=
  E.tallies.findSome? (fun rt => rt.2.find_quorum_of_commits cfg)

/-- Modelled from the spec: `voted_or_committed(author, r)` holds when the
author has any vote (commit or not) in round `r` (spec section 4.5). -/
def Election.voted_or_committed (E : Election) (a : PublicKey) (r : Round) : Bool :=
  match alookup E.tallies r with
  | some t => (alookup t.votes a).isSome
  | none => false

/-- Messages the proposer sends over the network, tagged by destination:
`voteAll` is a vote broadcast to `self.addresses` (all primaries), as in
`process_header`; `voteOthers` is a vote broadcast to `self.other_primaries`,
as in `process_vote`; `headerAll` is a header broadcast to `self.addresses`,
as in `make_header`. -/
inductive OutMsg where
  | voteAll (v : Vote)
  | voteOthers (v : Vote)
  | headerAll (h : Header)
deriving DecidableEq, Repr

/-- The mutable state of `Proposer` (proposer.rs lines 29-69) that the
embedded operations read or write. Channel endpoints, the network handles and
the address books are replaced by the tagged `OutMsg` outputs; the fields
`digests`, `payload_size` and `payloads` are dead in the shown code paths and
are omitted. -/
structure ProposerState where
  name : PublicKey
  header_size : Nat
  round : Round
  elections : List (Round × List (ElectionId × Election))
  byzantine : Bool
  proposals : List (TxHash × ElectionId)
  votes : List (Digest × List (TxHash × ElectionId))
  pending_votes : List (Round × List Vote)
  decided : List ElectionId
  active_elections : List ElectionId
  decided_elections : List (Digest × Bool)
  own_proposals : List Round
  all_proposals : List (Digest × List ElectionId)
deriving DecidableEq, Repr

/-- Result of one embedded handler call: the state and messages as of the
return — or, when `panic` is true, as of the panic point — plus whether the
header-delay timer was reset. -/
structure StepResult where
  state : ProposerState
  sent : List OutMsg
  resetTimer : Bool
  panic : Bool
deriving DecidableEq, Repr

/-- The election stored at `elections[pr][eid]`. -/
def electionAt (s : ProposerState) (pr : Round) (eid : ElectionId) : Option Election :=
  (alookup s.elections pr).bind (fun em => alookup em eid)

/-- The `header_decided` scan at the end of `process_vote` (proposer.rs lines
397-413): with `all_proposals` missing the header id the flag stays true, and
every listed election must exist and be decided otherwise. -/
def headerDecidedFlag (em : List (ElectionId × Election))
    (allProps : List (Digest × List ElectionId)) (hid : Digest) : Bool :=
  match alookup allProps hid with
  | none => true
  | some ids => ids.all (fun eid =>
      match alookup em eid with
      | some el => el.decided
      | none => false)

/-- Common exit of `process_vote` on the paths that fall through to the
`header_decided` check (proposer.rs lines 397-420): the state is unchanged
from `s`, and `self.votes.get(&vote.header_id).unwrap()` panics when the flag
is true but `votes` lacks the header id. -/
def finishVote (s : ProposerState) (pr : Round) (hid : Digest)
    (sends : List OutMsg) : StepResult :=
  let em := (alookup s.elections pr).getD []
  ⟨s, sends, false, headerDecidedFlag em s.all_proposals hid && (alookup s.votes hid).isNone⟩

/-- Store election `E` at `elections[pr][eid]` given the inner map `em`
currently at `pr` (embeds mutation through `get_mut`). -/
def ProposerState.setElection (s : ProposerState) (pr : Round)
    (em : List (ElectionId × Election)) (eid : ElectionId) (E : Election) :
    ProposerState :=
  { s with elections := aupsert s.elections pr (aupsert em eid E) }

/-- Embedding of `Proposer::process_vote` (proposer.rs lines 215-427).
Branches, in source order: byzantine no-op; missing round map (silent drop);
missing election (buffer into `pending_votes`); decided election (skip to the
`header_decided` check); otherwise insert the vote and run the transition
rules — decision on a quorum of commits (with the `decided_elections` unwrap,
which panics on a missing key), the commit step on a quorum of votes, the
vote-change step, and the initial-vote step. -/
def processVote (cfg : Config) (s : ProposerState) (v : Vote) : StepResult :=
  if s.byzantine then ⟨s, [], false, false⟩ else
  match alookup s.elections v.proposal_round with
  | none => ⟨s, [], false, false⟩
  | some em =>
    match alookup em v.election_id with
    | none =>
        let cur := (alookup s.pending_votes v.proposal_round).getD []
        let s1 := { s with
          pending_votes := aupsert s.pending_votes v.proposal_round (sinsert v cur) }
        finishVote s1 v.proposal_round v.header_id []
    | some E =>
      if E.decided then finishVote s v.proposal_round v.header_id []
      else
        let E1 := E.insert_vote v
        let em1 := aupsert em v.election_id E1
        let s1 := { s with elections := aupsert s.elections v.proposal_round em1 }
        match alookup E1.tallies v.round with
        | none => finishVote s1 v.proposal_round v.header_id []
        | some tally =>
          match E1.find_quorum_of_commits cfg with
          | some id =>
            match alookup s1.decided_elections id with
            | none => ⟨s1, [], false, true⟩
            | some b =>
              if b then ⟨s1, [], false, false⟩
              else
                let E2 := { E1 with decided := true }
                ⟨{ (s1.setElection v.proposal_round em1 v.election_id E2) with
                    round := s1.round + 1 }, [], true, false⟩
          | none =>
            match tally.find_quorum_of_votes cfg with
            | some x =>
              if E1.voted_or_committed s.name (v.round + 1) then
                finishVote s1 v.proposal_round v.header_id []
              else
                let own : Vote :=
                  ⟨v.round + 1, x, v.election_id, v.proposal_round, true, s.name, v.header_id⟩
                let E2 := ({ E1 with commit := some x,
                                     proof_round := some v.round }).insert_vote own
                let s2 := s1.setElection v.proposal_round em1 v.election_id E2
                finishVote s2 v.proposal_round v.header_id [OutMsg.voteOthers own]
            | none =>
              if E1.voted_or_committed s.name v.round
                 && ((cfg.quorum ≤ tally.total_votes cfg &&
                       tally.timer = TimerState.Expired)
                     || tally.total_votes cfg = cfg.numNodes)
                 && !(E1.voted_or_committed s.name (v.round + 1)) then
                match E1.highest with
                | none => ⟨s1, [], false, true⟩
                | some h0 =>
                  let hx := match E1.commit with
                    | some c => c
                    | none => h0
                  let committed := match E1.commit with
                    | some _ => true
                    | none => false
                  let own : Vote :=
                    ⟨v.round + 1, hx, v.election_id, v.proposal_round, committed,
                      s.name, v.header_id⟩
                  let E2 := E1.insert_vote own
                  let s2 := s1.setElection v.proposal_round em1 v.election_id E2
                  finishVote s2 v.proposal_round v.header_id [OutMsg.voteOthers own]
              else if !(E1.voted_or_committed s.name v.round) then
                let x1 := match E1.highest with
                  | some h => h
                  | none => v.tx_hash
                let x2 := match E1.commit with
                  | some c => c
                  | none => x1
                let own : Vote :=
                  ⟨v.round, x2, v.election_id, v.proposal_round, v.commit,
                    s.name, v.header_id⟩
                let E2 := E1.insert_vote own
                let s2 := s1.setElection v.proposal_round em1 v.election_id E2
                finishVote s2 v.proposal_round v.header_id [OutMsg.voteOthers own]
              else
                finishVote s1 v.proposal_round v.header_id []

/-- One iteration of the proposal loop in `process_header` (proposer.rs lines
142-202): build the proposer's implicit round-0 vote, drop the election from
`proposals`, insert the vote (creating the election and registering it active
when new), and — when the header is not our own — insert and broadcast our own
round-0 vote to all primaries. -/
def processProposal (hRound : Round) (hId : Digest) (hAuthor : PublicKey)
    (s : ProposerState) (p : TxHash × ElectionId) : ProposerState × List OutMsg :=
  let vote : Vote := ⟨0, p.1, p.2, hRound, false, hAuthor, hId⟩
  let s1 := { s with proposals := s.proposals.filter (fun q => q.2 ≠ p.2) }
  let em := (alookup s1.elections hRound).getD []
  let step2 : List (ElectionId × Election) × ProposerState :=
    match alookup em p.2 with
    | some el => (aupsert em p.2 (el.insert_vote vote), s1)
    | none =>
        let el := Election.new.insert_vote vote
        let active' :=
          if !(s1.active_elections.contains p.2) && !(s1.decided.contains p.2)
          then s1.active_elections ++ [p.2] else s1.active_elections
        (aupsert em p.2 el, { s1 with active_elections := active' })
  let em2 := step2.1
  let s2 := step2.2
  let el2 := (alookup em2 p.2).getD Election.new
  if hAuthor ≠ s.name then
    let own : Vote := { vote with author := s.name }
    let em3 := aupsert em2 p.2 (el2.insert_vote own)
    ({ s2 with elections := aupsert s2.elections hRound em3 }, [OutMsg.voteAll own])
  else
    ({ s2 with elections := aupsert s2.elections hRound em2 }, [])

/-- Re-process a drained list of pending votes through `process_vote`
(proposer.rs lines 203-210), each exactly once, accumulating sent messages and
timer resets and stopping at the first panic. -/
def processVotesList (cfg : Config) :
    ProposerState → List Vote → List OutMsg → Bool → StepResult
  | s, [], outs, rt => ⟨s, outs, rt, false⟩
  | s, v :: rest, outs, rt =>
    let r := processVote cfg s v
    if r.panic then ⟨r.state, outs ++ r.sent, rt || r.resetTimer, true⟩
    else processVotesList cfg r.state rest (outs ++ r.sent) (rt || r.resetTimer)

/-- The part of `process_header` before the pending-vote drain (proposer.rs
lines 129-202): record `decided_elections[h.id] = false`, materialise the
round's election map, record `votes[h.id]`, then run the proposal loop. -/
def headerCore (s : ProposerState) (h : Header) : ProposerState × List OutMsg :=
  let s1 := { s with decided_elections := aupsert s.decided_elections h.id false }
  let s2 := if (alookup s1.elections h.round).isNone
            then { s1 with elections := aupsert s1.elections h.round [] } else s1
  let s3 := { s2 with votes := aupsert s2.votes h.id h.votes }
  h.votes.foldl
    (fun acc p =>
      let r := processProposal h.round h.id h.author acc.1 p
      (r.1, acc.2 ++ r.2))
    (s3, [])

/-- The non-byzantine body of `process_header`: run the header core and then
drain `pending_votes[h.round]`, re-processing each buffered vote once
(proposer.rs lines 129-211). -/
def processHeaderBody (cfg : Config) (s : ProposerState) (h : Header) : StepResult :=
  let core := headerCore s h
  match alookup core.1.pending_votes h.round with
  | none => ⟨core.1, core.2, false, false⟩
  | some vs =>
      processVotesList cfg
        { core.1 with pending_votes := aerase core.1.pending_votes h.round }
        vs core.2 false

/-- Embedding of `Proposer::process_header` (proposer.rs lines 123-213): a
byzantine replica does nothing; otherwise run the body above. -/
def processHeader (cfg : Config) (s : ProposerState) (h : Header) : StepResult :=
  if s.byzantine then ⟨s, [], false, false⟩ else processHeaderBody cfg s h

/-- Embedding of `Proposer::make_header` (proposer.rs lines 429-470): a
byzantine replica does nothing; otherwise drop proposals whose election is
decided or active, drain all remaining proposals into a signed header for the
current round, record the round in `own_proposals`, and broadcast the header
to all committee addresses. -/
def makeHeader (cfg : Config) (s : ProposerState) : StepResult :=
  if s.byzantine then ⟨s, [], false, false⟩ else
  let ps1 := s.proposals.filter (fun p => !(s.decided.contains p.2))
  let ps2 := ps1.filter (fun p => !(s.active_elections.contains p.2))
  let h : Header := ⟨s.round, s.name, ps2, cfg.hashHeader s.round s.name ps2⟩
  ⟨{ s with proposals := [],
            own_proposals := s.own_proposals ++ [s.round] },
    [OutMsg.headerAll h], false, false⟩

/-- The events `Proposer::run` selects on (proposer.rs lines 477-509): a
digest pair from a worker, the header-delay timer firing, and a message from
another primary (header, vote, or any other variant, which `run` ignores). -/
inductive Event where
  | worker (tx : TxHash) (eid : ElectionId)
  | timerFire
  | header (h : Header)
  | vote (v : Vote)
  | otherMsg
deriving DecidableEq, Repr

/-- One iteration of the `Proposer::run` select loop (proposer.rs lines
477-509). The worker branch records the proposal (unless byzantine) and calls
`make_header` when `proposals.len() ≥ header_size` and no own header exists
for the current round; the timer branch calls `make_header` when proposals
are pending and no own header exists for the round, then always re-arms the
timer; primary messages dispatch to the two handlers. -/
def step (cfg : Config) (s : ProposerState) : Event → StepResult
  | Event.worker tx eid =>
    let s1 := if s.byzantine then s else { s with proposals := s.proposals ++ [(tx, eid)] }
    if s1.header_size ≤ s1.proposals.length && !(s1.own_proposals.contains s1.round)
    then makeHeader cfg s1 else ⟨s1, [], false, false⟩
  | Event.timerFire =>
    let r := if 0 < s.proposals.length && !(s.own_proposals.contains s.round)
             then makeHeader cfg s else ⟨s, [], false, false⟩
    ⟨r.state, r.sent, true, r.panic⟩
  | Event.header h => processHeader cfg s h
  | Event.vote v => processVote cfg s v
  | Event.otherMsg => ⟨s, [], false, false⟩

/-- Run the proposer loop over a list of events, collecting all sent
messages (the real loop stops at a panic; continuing here only adds states
and messages, so safety bounds proved over this run cover the real one). -/
def runTrace (cfg : Config) (s : ProposerState) : List Event → ProposerState × List OutMsg
  | [] => (s, [])
  | e :: es =>
    let r := step cfg s e
    let rest := runTrace cfg r.state es
    (rest.1, r.sent ++ rest.2)

/-- The proposer state as built by `Proposer::spawn` (proposer.rs lines
88-117): round 0 and every container empty. -/
def initState (name : PublicKey) (header_size : Nat) (byz : Bool) : ProposerState :=
  { name := name
    header_size := header_size
    round := 0
    elections := []
    byzantine := byz
    proposals := []
    votes := []
    pending_votes := []
    decided := []
    active_elections := []
    decided_elections := []
    own_proposals := []
    all_proposals := [] }

/-- Modelled from the spec: the committee of the `config` crate (not under
`src/`). Spec section 3: a fixed list of authorities, each with a
non-negative integer stake. -/
structure Committee where
  members : List PublicKey
  stakeOf : PublicKey → Nat

/-- Modelled from the spec: `committee.stake(pk)` of the `config` crate. -/
def Committee.stake (c : Committee) (a : PublicKey) : Nat := c.stakeOf a

/-- Modelled from the spec: `total_stake` is the sum of all authorities'
stakes (spec section 3). -/
def Committee.total_stake (c : Committee) : Nat := (c.members.map c.stakeOf).sum

/-- Modelled from the spec: `committee.quorum_threshold()` of the `config`
crate; spec section 3 writes `⌈2·total_stake/3⌉ + 1` and abbreviates it
`2f+1`. The abbreviation fixes the standard integer computation
`2·total/3 + 1` with floor division (for `N` unit stakes and `f = (N-1)/3`
this equals `2f+1`; the ceiling reading would not). -/
def Committee.quorum_threshold (c : Committee) : Nat :=
  2 * c.total_stake / 3 + 1

/-- A vote as consumed by the votes aggregator: its author and its signature
(`aggregators.rs` reads only these two fields of `messages::Vote`). -/
structure AggVote where
  author : PublicKey
  signature : Nat
deriving DecidableEq, Repr

/-- A certificate (`messages::Certificate` as built in `aggregators.rs`):
the header and the collected `(author, signature)` pairs. -/
structure Certificate where
  header : Header
  votes : List (PublicKey × Nat)
deriving DecidableEq, Repr

/-- The error relevant to `VotesAggregator::append` (`error.rs` is not under
`src/`; the variant name and payload are read off the `ensure!` call). -/
inductive DagError where
  | AuthorityReuse (a : PublicKey)
deriving DecidableEq, Repr

/-- State of `VotesAggregator` (aggregators.rs lines 11-15). -/
structure VotesAggregator where
  weight : Nat
  votes : List (PublicKey × Nat)
  used : List PublicKey
deriving DecidableEq, Repr

/-- `VotesAggregator::new` (aggregators.rs lines 18-24). -/
def VotesAggregator.new : VotesAggregator := ⟨0, [], []⟩

/-- Embedding of `VotesAggregator::append` (aggregators.rs lines 26-47):
reject a reused author with `AuthorityReuse`; otherwise record the vote, add
the author's stake, and on reaching the quorum threshold zero the weight and
emit the certificate. Returns the optional certificate and the new state;
an error leaves the aggregator unchanged. -/
def VotesAggregator.append (agg : VotesAggregator) (vote : AggVote)
    (committee : Committee) (header : Header) :
    Except DagError (Option Certificate × VotesAggregator) :=
  if agg.used.contains vote.author then
    Except.error (DagError.AuthorityReuse vote.author)
  else
    let votes' := agg.votes ++ [(vote.author, vote.signature)]
    let weight' := agg.weight + committee.stake vote.author
    let used' := agg.used ++ [vote.author]
    if committee.quorum_threshold ≤ weight' then
      Except.ok (some ⟨header, votes'⟩, ⟨0, votes', used'⟩)
    else
      Except.ok (none, ⟨weight', votes', used'⟩)

/-- Fold a list of votes through `append` from a given aggregator state,
counting the certificates emitted (errors leave the state unchanged, as in
the Rust caller which drops the failed message). -/
def aggRunCount (c : Committee) (h : Header) :
    VotesAggregator → List AggVote → Nat
  | _, [] => 0
  | agg, v :: vs =>
    match agg.append v c h with
    | Except.error _ => aggRunCount c h agg vs
    | Except.ok (o, agg') => (if o.isSome then 1 else 0) + aggRunCount c h agg' vs

/-- A client transaction as the worker sees it (`primary::Transaction`; the
file defining it is not under `src/`, but `batch_maker.rs` reads only `id`
and `data.len()`, both byte vectors). -/
structure Transaction where
  id : List Nat
  data : List Nat
deriving DecidableEq, Repr

/-- The id-derivation in `seal` (batch_maker.rs lines 169-179): the first
transaction's id left-padded with zeroes, or truncated, to 32 bytes. -/
def padTo32 (v : List Nat) : List Nat :=
  if v.length < 32 then v ++ List.replicate (32 - v.length) 0 else v.take 32

/-- The batch maker state that `seal` reads and writes (batch_maker.rs
lines 29-50). -/
structure BatchMakerState where
  batch_size : Nat
  current_batch : List Transaction
  current_batch_size : Nat
deriving DecidableEq, Repr

/-- What one `seal` call emits: reliable broadcasts to the other workers
(none — the broadcast at batch_maker.rs lines 207-210 is commented out),
the `(serialized_batch, digest)` pair sent on `tx_batch` toward the
processor and hence the primary, and the number of acknowledgements awaited
before that send (zero — the `QuorumWaiter` stage at worker.rs lines 163-168
is commented out and `tx_batch` is wired directly to the processor at
worker.rs lines 129 and 172-177). -/
structure SealEffects where
  workerBroadcasts : List (List Transaction)
  toProcessor : Option (List Transaction × List Nat)
  acksAwaited : Nat
deriving DecidableEq, Repr

/-- Embedding of `BatchMaker::seal` (batch_maker.rs lines 113-227): drain the
current batch, serialize it as a `Block` (serialization is the external
oracle; the transaction list stands for the bytes), derive the 32-byte id
from the first transaction (`batch[0]` panics on an empty batch, returned as
`none`), and send the pair on `tx_batch`. Named `sealBatch` because `seal` is
reserved in Lean. -/
def sealBatch (s : BatchMakerState) : Option (BatchMakerState × SealEffects) :=
  match s.current_batch with
  | [] => none
  | tx :: _ =>
    some ({ s with current_batch := [], current_batch_size := 0 },
          { workerBroadcasts := []
            toProcessor := some (s.current_batch, padTo32 tx.id)
            acksAwaited := 0 })

/-- `worker::CHANNEL_CAPACITY` (worker.rs line 21): the Rust literal is
`100_0000`, that is one million. -/
def CHANNEL_CAPACITY : Nat := 1000000

/-- Outcome of a network receiver handler on one inbound frame. -/
inductive DispatchOutcome where
  | ok (forwarded : Nat)
  | okLoggedDrop
  | panicked
deriving DecidableEq, Repr

/-- The message exchanged between workers (worker.rs lines 31-35). -/
inductive WorkerMessage where
  | Batch (b : List Transaction)
  | BatchRequest (ds : List Digest) (origin : PublicKey)
deriving DecidableEq, Repr

/-- Embedding of `TxReceiverHandler::dispatch` (worker.rs lines 244-275): the
inbound frame is deserialized with `.unwrap()`, so a malformed frame panics
the task; a well-formed transaction is forwarded to the batch maker. The
argument is the deserialization result (`none` = failure). -/
def txReceiverDispatch (m : Option Transaction) : DispatchOutcome :=
  match m with
  | none => DispatchOutcome.panicked
  | some _ => DispatchOutcome.ok 1

/-- Embedding of `WorkerReceiverHandler::dispatch` (worker.rs lines 284-310):
a malformed frame is logged at warn and dropped, returning `Ok(())`; a
`Batch` is ignored (the processor send is commented out); a `BatchRequest` is
forwarded to the helper channel. -/
def workerReceiverDispatch (m : Option WorkerMessage) : DispatchOutcome :=
  match m with
  | none => DispatchOutcome.okLoggedDrop
  | some (WorkerMessage.Batch _) => DispatchOutcome.ok 0
  | some (WorkerMessage.BatchRequest _ _) => DispatchOutcome.ok 1

/-- Embedding of `PrimaryReceiverHandler::dispatch` (worker.rs lines 318-336):
a malformed frame is logged at error and dropped, returning `Ok(())`; a
well-formed message is forwarded to the synchronizer. The primary-to-worker
message payload is opaque here. -/
def primaryReceiverDispatch (m : Option Unit) : DispatchOutcome :=
  match m with
  | none => DispatchOutcome.okLoggedDrop
  | some _ => DispatchOutcome.ok 1

/-! ## Helper lemmas about the association-list operations -/

theorem alookup_aupsert_self {K V : Type} [DecidableEq K] (l : List (K × V)) (k : K) (v : V) :
    alookup (aupsert l k v) k = some v := by
  induction l with
  | nil => simp [alookup, aupsert]
  | cons p rest ih =>
      by_cases hk : k = p.1
      · simp [aupsert, hk, alookup]
      · simp [aupsert, alookup, hk, ih]

theorem alookup_aupsert_ne {K V : Type} [DecidableEq K] (l : List (K × V)) (k k' : K) (v : V)
    (h : k' ≠ k) : alookup (aupsert l k v) k' = alookup l k' := by
  induction l with
  | nil => simp [alookup, aupsert, h]
  | cons p rest ih =>
      by_cases hk : k = p.1
      · subst hk
        simp [aupsert, alookup, h]
      · by_cases hk' : k' = p.1
        · simp [aupsert, alookup, hk, hk']
        · simp [aupsert, alookup, hk, hk', ih]

/-! ## C9: the worker channel capacity -/

/-- C9 counterexample: the claim says the `CHANNEL_CAPACITY` constant equals
100000; the source literal at worker.rs line 21 is `100_0000`, which is one
million, so the claim is false. -/
theorem C9_capacity_counterexample : CHANNEL_CAPACITY ≠ 100000 := by decide

/-- C9 (amended): the default capacity of every bounded channel created by
the worker, the `CHANNEL_CAPACITY` constant, equals 1000000. -/
theorem C9_capacity_value : CHANNEL_CAPACITY = 1000000 := rfl

/-! ## C8: handler behavior on deserialization failure -/

/-- C8 counterexample: the claim says every receiving handler, including the
client-transaction receiver, drops a frame that fails to deserialize and
returns normally; but `TxReceiverHandler::dispatch` calls `.unwrap()` on the
deserialization result (worker.rs line 249), so a malformed frame panics the
task instead. -/
theorem C8_tx_receiver_counterexample :
    txReceiverDispatch none = DispatchOutcome.panicked := rfl

/-- C8 (amended): on a deserialization failure, the worker-to-worker receiver
and the primary-message receiver drop the message, log the failure and return
normally; the client-transaction receiver instead panics, terminating its
task. -/
theorem C8_deserialize_failure_behavior :
    workerReceiverDispatch none = DispatchOutcome.okLoggedDrop ∧
    primaryReceiverDispatch none = DispatchOutcome.okLoggedDrop ∧
    txReceiverDispatch none = DispatchOutcome.panicked :=
  ⟨rfl, rfl, rfl⟩

/-! ## C4: batch dissemination before forwarding to the primary -/

/-- C4 counterexample: sealing a concrete one-transaction batch emits no
broadcast to the other workers and forwards the `(batch, digest)` pair toward
the primary's processor in the same call, with zero acknowledgements
gathered — the claim requires a reliable broadcast and a `2f+1`
acknowledgement quorum before any forwarding. -/
theorem C4_seal_counterexample :
    (sealBatch ⟨1000, [⟨[7], [1, 2, 3]⟩], 35⟩).map
        (fun r => (r.2.workerBroadcasts.length, r.2.toProcessor.isSome, r.2.acksAwaited))
      = some (0, true, 0) := by decide

/-- C4 (amended): every non-empty batch sealed by a worker is sent directly
to the processor — and hence toward the primary — in the same `seal` call,
with no broadcast to the other workers and no acknowledgements awaited: the
batch broadcast (batch_maker.rs lines 207-210) and the `QuorumWaiter` stage
(worker.rs lines 163-168) are both commented out, and `tx_batch` is wired
straight to the processor (worker.rs lines 129, 172-177). -/
theorem C4_seal_no_broadcast (s : BatchMakerState) (tx : Transaction)
    (rest : List Transaction) (h : s.current_batch = tx :: rest) :
    sealBatch s =
      some ({ s with current_batch := [], current_batch_size := 0 },
            { workerBroadcasts := []
              toProcessor := some (s.current_batch, padTo32 tx.id)
              acksAwaited := 0 }) := by
  unfold sealBatch
  rw [h]

/-- C4 witness: the amended seal theorem applied at a concrete batch. -/
theorem C4_seal_no_broadcast_witness :
    (⟨1000, [⟨[7], [1, 2, 3]⟩], 35⟩ : BatchMakerState).current_batch
        = ⟨[7], [1, 2, 3]⟩ :: [] ∧
    sealBatch ⟨1000, [⟨[7], [1, 2, 3]⟩], 35⟩ =
      some (⟨1000, [], 0⟩,
            ⟨[], some ([⟨[7], [1, 2, 3]⟩], padTo32 [7]), 0⟩) :=
  ⟨rfl, C4_seal_no_broadcast ⟨1000, [⟨[7], [1, 2, 3]⟩], 35⟩ ⟨[7], [1, 2, 3]⟩ [] rfl⟩

/-! ## C7: make_header -/

/-- A shared concrete configuration for witnesses: unit stake, quorum 3 of 4
nodes, header ids all zero. -/
def cfgEx : Config := ⟨fun _ => 1, 3, 4, fun _ _ _ => 0⟩

/-- C7 counterexample: with `header_size = 1` and two pending proposals,
`make_header` puts both proposals into the header and leaves none pending —
the claim says it drains at most `header_size` proposals and the rest stay
pending. (`self.proposals.drain(..)` at proposer.rs line 449 drains all.) -/
theorem C7_drain_counterexample :
    (makeHeader cfgEx { initState 0 1 false with proposals := [(1, 10), (2, 20)] }).state.proposals = [] ∧
    (makeHeader cfgEx { initState 0 1 false with proposals := [(1, 10), (2, 20)] }).sent
      = [OutMsg.headerAll ⟨0, 0, [(1, 10), (2, 20)], 0⟩] := by
  constructor <;> decide

/-- Full characterization of `make_header` on a non-byzantine replica,
shared by the proposer theorems below. -/
theorem makeHeader_spec (cfg : Config) (s : ProposerState)
    (hb : s.byzantine = false) :
    makeHeader cfg s =
      ⟨{ s with proposals := [],
                own_proposals := s.own_proposals ++ [s.round] },
        [OutMsg.headerAll
          ⟨s.round, s.name,
            (s.proposals.filter (fun p => !(s.decided.contains p.2))).filter
              (fun p => !(s.active_elections.contains p.2)),
            cfg.hashHeader s.round s.name
              ((s.proposals.filter (fun p => !(s.decided.contains p.2))).filter
                (fun p => !(s.active_elections.contains p.2)))⟩],
        false, false⟩ := by
  unfold makeHeader
  rw [hb]
  rfl

/-- A byzantine replica's `make_header` does nothing. -/
theorem makeHeader_byz (cfg : Config) (s : ProposerState)
    (hb : s.byzantine = true) : makeHeader cfg s = ⟨s, [], false, false⟩ := by
  unfold makeHeader
  rw [hb]
  rfl

/-- C7 (amended): `make_header` first removes from the pending proposals
every entry whose election id is in the decided set or the active elections
list, then drains ALL remaining proposals into the new header regardless of
`header_size`, builds the header with the current round and itself as author
(id from the hashing oracle standing for the signed digest), records the
round in `own_proposals`, and broadcasts the header to all committee
addresses. -/
theorem C7_make_header_behavior (cfg : Config) (s : ProposerState)
    (hb : s.byzantine = false) :
    makeHeader cfg s =
      ⟨{ s with proposals := [],
                own_proposals := s.own_proposals ++ [s.round] },
        [OutMsg.headerAll
          ⟨s.round, s.name,
            (s.proposals.filter (fun p => !(s.decided.contains p.2))).filter
              (fun p => !(s.active_elections.contains p.2)),
            cfg.hashHeader s.round s.name
              ((s.proposals.filter (fun p => !(s.decided.contains p.2))).filter
                (fun p => !(s.active_elections.contains p.2)))⟩],
        false, false⟩ :=
  makeHeader_spec cfg s hb

/-- C7 witness: the amended make_header theorem applied at a concrete state
with one decided and one active election filtered out. -/
theorem C7_make_header_witness :
    ({ initState 9 5 false with
        proposals := [(1, 10), (2, 20), (3, 30)]
        decided := [10]
        active_elections := [20]
        round := 4 } : ProposerState).byzantine = false ∧
    makeHeader cfgEx { initState 9 5 false with
        proposals := [(1, 10), (2, 20), (3, 30)]
        decided := [10]
        active_elections := [20]
        round := 4 } =
      ⟨{ initState 9 5 false with
          proposals := []
          decided := [10]
          active_elections := [20]
          round := 4
          own_proposals := [4] },
        [OutMsg.headerAll ⟨4, 9, [(3, 30)], 0⟩], false, false⟩ := by
  refine ⟨rfl, ?_⟩
  have h := C7_make_header_behavior cfgEx { initState 9 5 false with
      proposals := [(1, 10), (2, 20), (3, 30)]
      decided := [10]
      active_elections := [20]
      round := 4 } rfl
  rw [h]
  decide

/-! ## C5: the votes aggregator -/

/-- Two quorums cannot fit in the committee's total stake. -/
theorem total_lt_two_quorum (c : Committee) :
    c.total_stake < 2 * c.quorum_threshold := by
  unfold Committee.quorum_threshold
  omega

/-- The stake of any duplicate-free set of committee members is bounded by
the total stake. -/
theorem stake_le_total (c : Committee) (l : List PublicKey)
    (hn : l.Nodup) (hsub : ∀ a ∈ l, a ∈ c.members) :
    (l.map c.stake).sum ≤ c.total_stake := by
  obtain ⟨l', hperm, hsl⟩ := hn.subperm (fun a ha => hsub a ha)
  calc (l.map c.stake).sum = (l'.map c.stake).sum := ((hperm.map c.stake).sum_eq).symm
    _ ≤ (c.members.map c.stake).sum :=
        (hsl.map c.stake).sum_le_sum (fun a _ => Nat.zero_le a)
    _ = c.total_stake := rfl

/-- `append` on a reused author: the `AuthorityReuse` error, nothing else. -/
theorem append_dup (agg : VotesAggregator) (v : AggVote) (c : Committee)
    (hd : Header) (h : v.author ∈ agg.used) :
    agg.append v c hd = Except.error (DagError.AuthorityReuse v.author) := by
  simp [VotesAggregator.append, h]

/-- `append` on a fresh author reaching the threshold: the certificate is
emitted and the weight zeroed. -/
theorem append_fresh_quorum (agg : VotesAggregator) (v : AggVote)
    (c : Committee) (hd : Header) (h : v.author ∉ agg.used)
    (hq : c.quorum_threshold ≤ agg.weight + c.stake v.author) :
    agg.append v c hd = Except.ok
      (some ⟨hd, agg.votes ++ [(v.author, v.signature)]⟩,
       ⟨0, agg.votes ++ [(v.author, v.signature)], agg.used ++ [v.author]⟩) := by
  simp [VotesAggregator.append, h, hq]

/-- `append` on a fresh author below the threshold: accumulate only. -/
theorem append_fresh_below (agg : VotesAggregator) (v : AggVote)
    (c : Committee) (hd : Header) (h : v.author ∉ agg.used)
    (hq : agg.weight + c.stake v.author < c.quorum_threshold) :
    agg.append v c hd = Except.ok
      (none, ⟨agg.weight + c.stake v.author,
              agg.votes ++ [(v.author, v.signature)],
              agg.used ++ [v.author]⟩) := by
  have hq' : ¬ (c.quorum_threshold ≤ agg.weight + c.stake v.author) := by omega
  simp [VotesAggregator.append, h, hq']

/-- Once a quorum's worth of stake has been spent from `used`, no further
certificate can be emitted: the weight accumulated since can never reach the
threshold again. -/
theorem aggRun_after_quorum (c : Committee) (hd : Header)
    (_hnd : c.members.Nodup) :
    ∀ (votes : List AggVote) (agg : VotesAggregator),
      agg.used.Nodup → (∀ a ∈ agg.used, a ∈ c.members) →
      (∀ v ∈ votes, v.author ∈ c.members) →
      agg.weight + c.quorum_threshold ≤ (agg.used.map c.stake).sum →
      aggRunCount c hd agg votes = 0 := by
  intro votes
  induction votes with
  | nil => intro agg _ _ _ _; rfl
  | cons v vs ih =>
      intro agg hund husub hvsub hinv
      by_cases hdup : v.author ∈ agg.used
      · rw [aggRunCount, append_dup agg v c hd hdup]
        exact ih agg hund husub (fun w hw => hvsub w (List.mem_cons_of_mem v hw)) hinv
      · have hmem : v.author ∈ c.members := hvsub v (List.mem_cons_self v vs)
        have hund' : (agg.used ++ [v.author]).Nodup := by
          simp [List.nodup_append, hund, hdup]
        have husub' : ∀ a ∈ agg.used ++ [v.author], a ∈ c.members := by
          intro a ha
          rcases List.mem_append.1 ha with h | h
          · exact husub a h
          · simp at h; subst h; exact hmem
        have hsum' : ((agg.used ++ [v.author]).map c.stake).sum
            = (agg.used.map c.stake).sum + c.stake v.author := by
          simp
        have hbound : ((agg.used ++ [v.author]).map c.stake).sum ≤ c.total_stake :=
          stake_le_total c _ hund' husub'
        have h2q := total_lt_two_quorum c
        have hlt : agg.weight + c.stake v.author < c.quorum_threshold := by omega
        rw [aggRunCount, append_fresh_below agg v c hd hdup hlt]
        have hrec := ih ⟨agg.weight + c.stake v.author,
            agg.votes ++ [(v.author, v.signature)], agg.used ++ [v.author]⟩
          hund' husub' (fun w hw => hvsub w (List.mem_cons_of_mem v hw))
          (by show agg.weight + c.stake v.author + c.quorum_threshold
                ≤ ((agg.used ++ [v.author]).map c.stake).sum
              rw [hsum']; omega)
        simpa using hrec

/-- From a state whose weight equals the stake of its used authors, any
sequence of appends emits at most one certificate. -/
theorem aggRun_le_one_aux (c : Committee) (hd : Header)
    (hnd : c.members.Nodup) :
    ∀ (votes : List AggVote) (agg : VotesAggregator),
      agg.used.Nodup → (∀ a ∈ agg.used, a ∈ c.members) →
      (∀ v ∈ votes, v.author ∈ c.members) →
      agg.weight = (agg.used.map c.stake).sum →
      aggRunCount c hd agg votes ≤ 1 := by
  intro votes
  induction votes with
  | nil => intro agg _ _ _ _; simp [aggRunCount]
  | cons v vs ih =>
      intro agg hund husub hvsub hinv
      by_cases hdup : v.author ∈ agg.used
      · rw [aggRunCount, append_dup agg v c hd hdup]
        exact ih agg hund husub (fun w hw => hvsub w (List.mem_cons_of_mem v hw)) hinv
      · have hmem : v.author ∈ c.members := hvsub v (List.mem_cons_self v vs)
        have hund' : (agg.used ++ [v.author]).Nodup := by
          simp [List.nodup_append, hund, hdup]
        have husub' : ∀ a ∈ agg.used ++ [v.author], a ∈ c.members := by
          intro a ha
          rcases List.mem_append.1 ha with h | h
          · exact husub a h
          · simp at h; subst h; exact hmem
        have hsum' : ((agg.used ++ [v.author]).map c.stake).sum
            = (agg.used.map c.stake).sum + c.stake v.author := by simp
        by_cases hq : c.quorum_threshold ≤ agg.weight + c.stake v.author
        · rw [aggRunCount, append_fresh_quorum agg v c hd hdup hq]
          have hrest : aggRunCount c hd
              ⟨0, agg.votes ++ [(v.author, v.signature)], agg.used ++ [v.author]⟩ vs = 0 := by
            refine aggRun_after_quorum c hd hnd vs _ hund' husub'
              (fun w hw => hvsub w (List.mem_cons_of_mem v hw)) ?_
            show 0 + c.quorum_threshold ≤ ((agg.used ++ [v.author]).map c.stake).sum
            rw [hsum']; omega
          simp [hrest]
        · have hlt : agg.weight + c.stake v.author < c.quorum_threshold := by omega
          rw [aggRunCount, append_fresh_below agg v c hd hdup hlt]
          have hrec := ih ⟨agg.weight + c.stake v.author,
              agg.votes ++ [(v.author, v.signature)], agg.used ++ [v.author]⟩
            hund' husub' (fun w hw => hvsub w (List.mem_cons_of_mem v hw))
            (by show agg.weight + c.stake v.author
                  = ((agg.used ++ [v.author]).map c.stake).sum
                rw [hsum']; omega)
          simpa using hrec

/-- C5: for one header, `VotesAggregator::append` (a) rejects a reused
author with `AuthorityReuse`; (b) for a fresh author it emits
`Certificate{h, votes}` exactly when the accumulated stake of the distinct
authors reaches the quorum threshold, zeroing the weight, and otherwise just
accumulates; and (c) over any sequence of appends whose authors belong to
the committee, at most one certificate is ever emitted. -/
theorem C5_votes_aggregator :
    (∀ (agg : VotesAggregator) (v : AggVote) (c : Committee) (hd : Header),
       v.author ∈ agg.used →
       agg.append v c hd = Except.error (DagError.AuthorityReuse v.author)) ∧
    (∀ (agg : VotesAggregator) (v : AggVote) (c : Committee) (hd : Header),
       v.author ∉ agg.used →
       (c.quorum_threshold ≤ agg.weight + c.stake v.author →
         agg.append v c hd = Except.ok
           (some ⟨hd, agg.votes ++ [(v.author, v.signature)]⟩,
            ⟨0, agg.votes ++ [(v.author, v.signature)], agg.used ++ [v.author]⟩)) ∧
       (agg.weight + c.stake v.author < c.quorum_threshold →
         agg.append v c hd = Except.ok
           (none, ⟨agg.weight + c.stake v.author,
                   agg.votes ++ [(v.author, v.signature)],
                   agg.used ++ [v.author]⟩))) ∧
    (∀ (c : Committee) (hd : Header) (votes : List AggVote),
       c.members.Nodup → (∀ v ∈ votes, v.author ∈ c.members) →
       aggRunCount c hd VotesAggregator.new votes ≤ 1) := by
  refine ⟨?_, ?_, ?_⟩
  · intro agg v c hd hdup
    exact append_dup agg v c hd hdup
  · intro agg v c hd hdup
    exact ⟨append_fresh_quorum agg v c hd hdup, append_fresh_below agg v c hd hdup⟩
  · intro c hd votes hnd hsub
    exact aggRun_le_one_aux c hd hnd votes VotesAggregator.new
      (by simp [VotesAggregator.new])
      (by simp [VotesAggregator.new]) hsub (by simp [VotesAggregator.new])

/-- A shared concrete committee for witnesses: four authorities of stake one,
so `total_stake = 4` and `quorum_threshold = 3`. -/
def cEx : Committee := ⟨[1, 2, 3, 4], fun _ => 1⟩

/-- A shared concrete header for the aggregator witnesses. -/
def hdrEx : Header := ⟨0, 1, [], 42⟩

/-- C5 witness: the aggregator theorem applied at concrete inputs — a
duplicate author is rejected, a fresh author completing the quorum emits the
certificate, and a run with a duplicate and all four authorities emits at
most one certificate. -/
theorem C5_votes_aggregator_witness :
    ((1 : PublicKey) ∈ ([1, 2] : List PublicKey) ∧
      (⟨2, [(1, 0), (2, 0)], [1, 2]⟩ : VotesAggregator).append ⟨1, 7⟩ cEx hdrEx
        = Except.error (DagError.AuthorityReuse 1)) ∧
    ((3 : PublicKey) ∉ ([1, 2] : List PublicKey) ∧
      cEx.quorum_threshold ≤ 2 + cEx.stake 3 ∧
      (⟨2, [(1, 0), (2, 0)], [1, 2]⟩ : VotesAggregator).append ⟨3, 9⟩ cEx hdrEx
        = Except.ok (some ⟨hdrEx, [(1, 0), (2, 0), (3, 9)]⟩,
            ⟨0, [(1, 0), (2, 0), (3, 9)], [1, 2, 3]⟩)) ∧
    (cEx.members.Nodup ∧
      (∀ v ∈ ([⟨1, 0⟩, ⟨1, 1⟩, ⟨2, 0⟩, ⟨3, 0⟩, ⟨4, 0⟩] : List AggVote),
        v.author ∈ cEx.members) ∧
      aggRunCount cEx hdrEx VotesAggregator.new
        [⟨1, 0⟩, ⟨1, 1⟩, ⟨2, 0⟩, ⟨3, 0⟩, ⟨4, 0⟩] ≤ 1) := by
  refine ⟨⟨by decide, ?_⟩, ⟨by decide, by decide, ?_⟩, ⟨by decide, by decide, ?_⟩⟩
  · exact C5_votes_aggregator.1 ⟨2, [(1, 0), (2, 0)], [1, 2]⟩ ⟨1, 7⟩ cEx hdrEx (by decide)
  · exact (C5_votes_aggregator.2.1 ⟨2, [(1, 0), (2, 0)], [1, 2]⟩ ⟨3, 9⟩ cEx hdrEx
      (by decide)).1 (by decide)
  · exact C5_votes_aggregator.2.2 cEx hdrEx _ (by decide) (by decide)

/-! ## Structural lemmas about the proposer handlers -/

theorem finishVote_state (s : ProposerState) (pr : Round) (hid : Digest)
    (out : List OutMsg) : (finishVote s pr hid out).state = s := rfl

theorem finishVote_sent (s : ProposerState) (pr : Round) (hid : Digest)
    (out : List OutMsg) : (finishVote s pr hid out).sent = out := rfl

/-- The headers among a list of output messages. -/
def emittedHeaders (l : List OutMsg) : List Header :=
  l.filterMap (fun m => match m with
    | OutMsg.headerAll h => some h
    | _ => none)

theorem emittedHeaders_nil : emittedHeaders [] = [] := rfl

theorem emittedHeaders_append (l₁ l₂ : List OutMsg) :
    emittedHeaders (l₁ ++ l₂) = emittedHeaders l₁ ++ emittedHeaders l₂ := by
  simp [emittedHeaders]

/-- `process_vote` never emits a header, never touches `own_proposals`,
`decided_elections`, `name`, `header_size` or `byzantine`, and never
decreases the round. -/
theorem processVote_frame (cfg : Config) (s : ProposerState) (v : Vote) :
    (processVote cfg s v).state.own_proposals = s.own_proposals ∧
    (processVote cfg s v).state.decided_elections = s.decided_elections ∧
    (processVote cfg s v).state.name = s.name ∧
    (processVote cfg s v).state.header_size = s.header_size ∧
    (processVote cfg s v).state.byzantine = s.byzantine ∧
    emittedHeaders (processVote cfg s v).sent = [] := by
  unfold processVote
  repeat' first
    | exact ⟨rfl, rfl, rfl, rfl, rfl, rfl⟩
    | split
    | dsimp only

/-- One proposal-loop iteration of `process_header` leaves `own_proposals`,
`decided_elections`, `pending_votes`, `votes`, the identity fields and the
round untouched, and emits no header. -/
theorem processProposal_frame (hR : Round) (hId : Digest) (hA : PublicKey)
    (s : ProposerState) (p : TxHash × ElectionId) :
    (processProposal hR hId hA s p).1.own_proposals = s.own_proposals ∧
    (processProposal hR hId hA s p).1.decided_elections = s.decided_elections ∧
    (processProposal hR hId hA s p).1.pending_votes = s.pending_votes ∧
    (processProposal hR hId hA s p).1.votes = s.votes ∧
    (processProposal hR hId hA s p).1.name = s.name ∧
    (processProposal hR hId hA s p).1.header_size = s.header_size ∧
    (processProposal hR hId hA s p).1.byzantine = s.byzantine ∧
    (processProposal hR hId hA s p).1.round = s.round ∧
    emittedHeaders (processProposal hR hId hA s p).2 = [] := by
  unfold processProposal
  repeat' first
    | exact ⟨rfl, rfl, rfl, rfl, rfl, rfl, rfl, rfl, rfl⟩
    | split
    | dsimp only

/-- The proposal fold inside `headerCore` preserves the same fields and adds
no headers to the accumulated output. -/
theorem headerCoreFold_frame (hR : Round) (hId : Digest) (hA : PublicKey) :
    ∀ (ps : List (TxHash × ElectionId)) (acc : ProposerState × List OutMsg),
      (ps.foldl (fun acc p =>
          let r := processProposal hR hId hA acc.1 p
          (r.1, acc.2 ++ r.2)) acc).1.own_proposals = acc.1.own_proposals ∧
      (ps.foldl (fun acc p =>
          let r := processProposal hR hId hA acc.1 p
          (r.1, acc.2 ++ r.2)) acc).1.decided_elections = acc.1.decided_elections ∧
      (ps.foldl (fun acc p =>
          let r := processProposal hR hId hA acc.1 p
          (r.1, acc.2 ++ r.2)) acc).1.pending_votes = acc.1.pending_votes ∧
      (ps.foldl (fun acc p =>
          let r := processProposal hR hId hA acc.1 p
          (r.1, acc.2 ++ r.2)) acc).1.name = acc.1.name ∧
      (ps.foldl (fun acc p =>
          let r := processProposal hR hId hA acc.1 p
          (r.1, acc.2 ++ r.2)) acc).1.header_size = acc.1.header_size ∧
      (ps.foldl (fun acc p =>
          let r := processProposal hR hId hA acc.1 p
          (r.1, acc.2 ++ r.2)) acc).1.byzantine = acc.1.byzantine ∧
      (ps.foldl (fun acc p =>
          let r := processProposal hR hId hA acc.1 p
          (r.1, acc.2 ++ r.2)) acc).1.round = acc.1.round ∧
      emittedHeaders (ps.foldl (fun acc p =>
          let r := processProposal hR hId hA acc.1 p
          (r.1, acc.2 ++ r.2)) acc).2 = emittedHeaders acc.2 := by
  intro ps
  induction ps with
  | nil => intro acc; exact ⟨rfl, rfl, rfl, rfl, rfl, rfl, rfl, rfl⟩
  | cons p ps ih =>
      intro acc
      have hp := processProposal_frame hR hId hA acc.1 p
      have hrec := ih ((processProposal hR hId hA acc.1 p).1,
        acc.2 ++ (processProposal hR hId hA acc.1 p).2)
      simp only [List.foldl] at hrec ⊢
      refine ⟨?_, ?_, ?_, ?_, ?_, ?_, ?_, ?_⟩
      · rw [hrec.1, hp.1]
      · rw [hrec.2.1, hp.2.1]
      · rw [hrec.2.2.1, hp.2.2.1]
      · rw [hrec.2.2.2.1, hp.2.2.2.2.1]
      · rw [hrec.2.2.2.2.1, hp.2.2.2.2.2.1]
      · rw [hrec.2.2.2.2.2.1, hp.2.2.2.2.2.2.1]
      · rw [hrec.2.2.2.2.2.2.1, hp.2.2.2.2.2.2.2.1]
      · rw [hrec.2.2.2.2.2.2.2, emittedHeaders_append, hp.2.2.2.2.2.2.2.2]
        simp

/-- The pre-drain part of `process_header`: it records
`decided_elections[h.id] = false`, keeps `own_proposals` and `pending_votes`,
keeps the identity fields and round, and emits no header. -/
theorem headerCore_frame (s : ProposerState) (h : Header) :
    (headerCore s h).1.own_proposals = s.own_proposals ∧
    (headerCore s h).1.decided_elections = aupsert s.decided_elections h.id false ∧
    (headerCore s h).1.pending_votes = s.pending_votes ∧
    (headerCore s h).1.name = s.name ∧
    (headerCore s h).1.header_size = s.header_size ∧
    (headerCore s h).1.byzantine = s.byzantine ∧
    (headerCore s h).1.round = s.round ∧
    emittedHeaders (headerCore s h).2 = [] := by
  unfold headerCore
  have hf := headerCoreFold_frame h.round h.id h.author h.votes
  dsimp only
  split <;> exact hf _

/-- Re-processing a list of pending votes preserves `own_proposals`,
`decided_elections` and the identity fields, and adds no header to the
output. -/
theorem processVotesList_frame (cfg : Config) :
    ∀ (vs : List Vote) (s : ProposerState) (outs : List OutMsg) (rt : Bool),
      (processVotesList cfg s vs outs rt).state.own_proposals = s.own_proposals ∧
      (processVotesList cfg s vs outs rt).state.decided_elections = s.decided_elections ∧
      (processVotesList cfg s vs outs rt).state.name = s.name ∧
      (processVotesList cfg s vs outs rt).state.header_size = s.header_size ∧
      (processVotesList cfg s vs outs rt).state.byzantine = s.byzantine ∧
      emittedHeaders (processVotesList cfg s vs outs rt).sent = emittedHeaders outs := by
  intro vs
  induction vs with
  | nil => intro s outs rt; exact ⟨rfl, rfl, rfl, rfl, rfl, rfl⟩
  | cons v vs ih =>
      intro s outs rt
      have hv := processVote_frame cfg s v
      simp only [processVotesList]
      split
      · refine ⟨hv.1, hv.2.1, hv.2.2.1, hv.2.2.2.1, hv.2.2.2.2.1, ?_⟩
        simp [emittedHeaders_append, hv.2.2.2.2.2]
      · have hrec := ih (processVote cfg s v).state (outs ++ (processVote cfg s v).sent)
          (rt || (processVote cfg s v).resetTimer)
        refine ⟨?_, ?_, ?_, ?_, ?_, ?_⟩
        · rw [hrec.1, hv.1]
        · rw [hrec.2.1, hv.2.1]
        · rw [hrec.2.2.1, hv.2.2.1]
        · rw [hrec.2.2.2.1, hv.2.2.2.1]
        · rw [hrec.2.2.2.2.1, hv.2.2.2.2.1]
        · rw [hrec.2.2.2.2.2, emittedHeaders_append, hv.2.2.2.2.2]
          simp

/-- A byzantine replica's `process_header` does nothing. -/
theorem processHeader_byz (cfg : Config) (s : ProposerState) (h : Header)
    (hb : s.byzantine = true) : processHeader cfg s h = ⟨s, [], false, false⟩ := by
  unfold processHeader
  rw [hb]
  rfl

/-- A non-byzantine `process_header` runs the body. -/
theorem processHeader_not_byz (cfg : Config) (s : ProposerState) (h : Header)
    (hb : s.byzantine = false) : processHeader cfg s h = processHeaderBody cfg s h := by
  unfold processHeader
  rw [hb]
  rfl

/-- The body of `process_header` never emits a header, never touches
`own_proposals` or the identity fields, and its only write to
`decided_elections` is recording `h.id ↦ false`. -/
theorem processHeaderBody_frame (cfg : Config) (s : ProposerState) (h : Header) :
    (processHeaderBody cfg s h).state.own_proposals = s.own_proposals ∧
    (processHeaderBody cfg s h).state.name = s.name ∧
    (processHeaderBody cfg s h).state.header_size = s.header_size ∧
    (processHeaderBody cfg s h).state.byzantine = s.byzantine ∧
    emittedHeaders (processHeaderBody cfg s h).sent = [] ∧
    (processHeaderBody cfg s h).state.decided_elections
      = aupsert s.decided_elections h.id false := by
  have hc := headerCore_frame s h
  unfold processHeaderBody
  dsimp only
  split
  · exact ⟨hc.1, hc.2.2.2.1, hc.2.2.2.2.1, hc.2.2.2.2.2.1, hc.2.2.2.2.2.2.2, hc.2.1⟩
  · rename_i vs hvs
    have hl := processVotesList_frame cfg vs
      { (headerCore s h).1 with
        pending_votes := aerase (headerCore s h).1.pending_votes h.round }
      (headerCore s h).2 false
    refine ⟨?_, ?_, ?_, ?_, ?_, ?_⟩
    · rw [hl.1]; exact hc.1
    · rw [hl.2.2.1]; exact hc.2.2.2.1
    · rw [hl.2.2.2.1]; exact hc.2.2.2.2.1
    · rw [hl.2.2.2.2.1]; exact hc.2.2.2.2.2.1
    · rw [hl.2.2.2.2.2]; exact hc.2.2.2.2.2.2.2
    · rw [hl.2.1]; exact hc.2.1

/-- The worker branch of `run` on a byzantine replica: no proposal is
recorded, but the guard is still evaluated. -/
theorem step_worker_byz (cfg : Config) (s : ProposerState) (tx : TxHash)
    (eid : ElectionId) (hb : s.byzantine = true) :
    step cfg s (Event.worker tx eid)
      = if s.header_size ≤ s.proposals.length && !(s.own_proposals.contains s.round)
        then makeHeader cfg s else ⟨s, [], false, false⟩ := by
  unfold step
  rw [hb]
  rfl

/-- The worker branch of `run` on a correct replica: record the proposal,
then maybe make a header. -/
theorem step_worker_not_byz (cfg : Config) (s : ProposerState) (tx : TxHash)
    (eid : ElectionId) (hb : s.byzantine = false) :
    step cfg s (Event.worker tx eid)
      = if s.header_size ≤ (s.proposals ++ [(tx, eid)]).length
            && !(s.own_proposals.contains s.round)
        then makeHeader cfg { s with proposals := s.proposals ++ [(tx, eid)] }
        else ⟨{ s with proposals := s.proposals ++ [(tx, eid)] }, [], false, false⟩ := by
  unfold step
  rw [hb]
  rfl

/-- The timer branch of `run`: maybe make a header, then re-arm the timer. -/
theorem step_timer (cfg : Config) (s : ProposerState) :
    step cfg s Event.timerFire
      = ⟨(if 0 < s.proposals.length && !(s.own_proposals.contains s.round)
          then makeHeader cfg s else ⟨s, [], false, false⟩).state,
         (if 0 < s.proposals.length && !(s.own_proposals.contains s.round)
          then makeHeader cfg s else ⟨s, [], false, false⟩).sent,
         true,
         (if 0 < s.proposals.length && !(s.own_proposals.contains s.round)
          then makeHeader cfg s else ⟨s, [], false, false⟩).panic⟩ := rfl

theorem step_header_eq (cfg : Config) (s : ProposerState) (h : Header) :
    step cfg s (Event.header h) = processHeader cfg s h := rfl

theorem step_vote_eq (cfg : Config) (s : ProposerState) (v : Vote) :
    step cfg s (Event.vote v) = processVote cfg s v := rfl

/-- `make_header` preserves the replica identity fields. -/
theorem makeHeader_name (cfg : Config) (s : ProposerState) :
    (makeHeader cfg s).state.name = s.name := by
  unfold makeHeader
  split <;> rfl

/-- Every step preserves the replica's name. -/
theorem step_name (cfg : Config) (s : ProposerState) (e : Event) :
    (step cfg s e).state.name = s.name := by
  cases e with
  | worker tx eid =>
      cases hb : s.byzantine with
      | true =>
          rw [step_worker_byz cfg s tx eid hb]
          split
          · exact makeHeader_name cfg s
          · rfl
      | false =>
          rw [step_worker_not_byz cfg s tx eid hb]
          split
          · exact makeHeader_name cfg { s with proposals := s.proposals ++ [(tx, eid)] }
          · rfl
  | timerFire =>
      rw [step_timer]
      dsimp only
      split
      · exact makeHeader_name cfg s
      · rfl
  | header h =>
      rw [step_header_eq]
      cases hb : s.byzantine with
      | true => rw [processHeader_byz cfg s h hb]
      | false =>
          rw [processHeader_not_byz cfg s h hb]
          exact (processHeaderBody_frame cfg s h).2.1
  | vote v =>
      rw [step_vote_eq]
      exact (processVote_frame cfg s v).2.2.1
  | otherMsg => rfl

/-- One step either emits no header and keeps `own_proposals`, or emits
exactly one header — round = the current round, author = self — for a round
not yet in `own_proposals`, and appends that round to `own_proposals`. -/
theorem step_emits (cfg : Config) (s : ProposerState) (e : Event) :
    ((step cfg s e).state.own_proposals = s.own_proposals ∧
      emittedHeaders (step cfg s e).sent = []) ∨
    (s.round ∉ s.own_proposals ∧
      (step cfg s e).state.own_proposals = s.own_proposals ++ [s.round] ∧
      ∃ hdr : Header, emittedHeaders (step cfg s e).sent = [hdr] ∧
        hdr.round = s.round ∧ hdr.author = s.name) := by
  cases e with
  | worker tx eid =>
      cases hb : s.byzantine with
      | true =>
          rw [step_worker_byz cfg s tx eid hb]
          split
          · rw [makeHeader_byz cfg s hb]
            exact Or.inl ⟨rfl, rfl⟩
          · exact Or.inl ⟨rfl, rfl⟩
      | false =>
          rw [step_worker_not_byz cfg s tx eid hb]
          split
          · rename_i hg
            rw [makeHeader_spec cfg { s with proposals := s.proposals ++ [(tx, eid)] } hb]
            simp at hg
            exact Or.inr ⟨hg.2, rfl, ⟨_, rfl, rfl, rfl⟩⟩
          · exact Or.inl ⟨rfl, rfl⟩
  | timerFire =>
      rw [step_timer]
      dsimp only
      split
      · rename_i hg
        cases hb : s.byzantine with
        | true =>
            rw [makeHeader_byz cfg s hb]
            exact Or.inl ⟨rfl, rfl⟩
        | false =>
            rw [makeHeader_spec cfg s hb]
            simp at hg
            exact Or.inr ⟨hg.2, rfl, ⟨_, rfl, rfl, rfl⟩⟩
      · exact Or.inl ⟨rfl, rfl⟩
  | header h =>
      rw [step_header_eq]
      cases hb : s.byzantine with
      | true =>
          rw [processHeader_byz cfg s h hb]
          exact Or.inl ⟨rfl, rfl⟩
      | false =>
          rw [processHeader_not_byz cfg s h hb]
          exact Or.inl ⟨(processHeaderBody_frame cfg s h).1,
            (processHeaderBody_frame cfg s h).2.2.2.2.1⟩
  | vote v =>
      rw [step_vote_eq]
      exact Or.inl ⟨(processVote_frame cfg s v).1, (processVote_frame cfg s v).2.2.2.2.2⟩
  | otherMsg => exact Or.inl ⟨rfl, rfl⟩

theorem runTrace_cons (cfg : Config) (s : ProposerState) (e : Event) (es : List Event) :
    runTrace cfg s (e :: es)
      = ((runTrace cfg (step cfg s e).state es).1,
         (step cfg s e).sent ++ (runTrace cfg (step cfg s e).state es).2) := rfl

theorem runTrace_append (cfg : Config) :
    ∀ (es1 es2 : List Event) (s : ProposerState),
      runTrace cfg s (es1 ++ es2)
        = ((runTrace cfg (runTrace cfg s es1).1 es2).1,
           (runTrace cfg s es1).2 ++ (runTrace cfg (runTrace cfg s es1).1 es2).2) := by
  intro es1
  induction es1 with
  | nil => intro es2 s; rfl
  | cons e es ih =>
      intro es2 s
      simp only [List.cons_append, runTrace_cons, ih, List.append_assoc]

/-- Every header emitted along a run carries the starting state's name as
its author. -/
theorem run_authors (cfg : Config) :
    ∀ (es : List Event) (s : ProposerState),
      ∀ hdr ∈ emittedHeaders (runTrace cfg s es).2, hdr.author = s.name := by
  intro es
  induction es with
  | nil => intro s hdr hm; simp [runTrace, emittedHeaders] at hm
  | cons e es ih =>
      intro s hdr hm
      rw [runTrace_cons] at hm
      rw [emittedHeaders_append] at hm
      rcases List.mem_append.1 hm with hstep | hrest
      · rcases step_emits cfg s e with ⟨_, hemit⟩ | ⟨_, _, hdr', hemit, _, hau⟩
        · rw [hemit] at hstep; simp at hstep
        · rw [hemit] at hstep
          simp at hstep
          subst hstep
          exact hau
      · have := ih (step cfg s e).state hdr hrest
        rw [this, step_name]

/-- Core counting invariant: along any run, at most one header is emitted
for any given round, and none at all for a round already in
`own_proposals`. -/
theorem run_round_invariant (cfg : Config) (r : Round) :
    ∀ (es : List Event) (s : ProposerState),
      ((emittedHeaders (runTrace cfg s es).2).filter
          (fun hdr => hdr.round == r)).length ≤ 1 ∧
      (r ∈ s.own_proposals →
        ((emittedHeaders (runTrace cfg s es).2).filter
            (fun hdr => hdr.round == r)).length = 0) := by
  intro es
  induction es with
  | nil =>
      intro s
      exact ⟨by simp [runTrace, emittedHeaders], fun _ => by simp [runTrace, emittedHeaders]⟩
  | cons e es ih =>
      intro s
      rw [runTrace_cons]
      simp only [emittedHeaders_append, List.filter_append, List.length_append]
      rcases step_emits cfg s e with ⟨hown, hemit⟩ | ⟨hnot, hown, hdr, hemit, hrd, _⟩
      · rw [hemit]
        simp only [List.filter_nil, List.length_nil, Nat.zero_add]
        refine ⟨(ih (step cfg s e).state).1, fun hin => ?_⟩
        exact (ih (step cfg s e).state).2 (by rw [hown]; exact hin)
      · rw [hemit]
        by_cases hr : hdr.round = r
        · have hround : r = s.round := by rw [← hr, hrd]
          have hfil : (List.filter (fun hdr => hdr.round == r) [hdr]).length = 1 := by
            simp [hr]
          rw [hfil]
          have hrest : ((emittedHeaders (runTrace cfg (step cfg s e).state es).2).filter
              (fun hdr => hdr.round == r)).length = 0 := by
            refine (ih (step cfg s e).state).2 ?_
            rw [hown, hround]
            simp
          rw [hrest]
          exact ⟨by omega, fun hin => absurd (hround ▸ hin) hnot⟩
        · have hfil : (List.filter (fun hdr => hdr.round == r) [hdr]).length = 0 := by
            simp [hr]
          rw [hfil]
          simp only [Nat.zero_add]
          refine ⟨(ih (step cfg s e).state).1, fun hin => ?_⟩
          exact (ih (step cfg s e).state).2 (by rw [hown]; exact List.mem_append_left _ hin)

/-- C6: in every execution of the proposer from its spawn state,
`own_proposals` grows monotonically (rounds are only appended), every header
the replica emits is authored by itself, and at most one header is emitted
per round — both `make_header` call sites are guarded by
`own_proposals.contains(round)` and `make_header` records the round. -/
theorem C6_one_header_per_round (cfg : Config) (nm hs : Nat) (byz : Bool)
    (events : List Event) :
    (∀ e : Event, ∃ t, (runTrace cfg (initState nm hs byz) (events ++ [e])).1.own_proposals
        = (runTrace cfg (initState nm hs byz) events).1.own_proposals ++ t) ∧
    (∀ hdr ∈ emittedHeaders (runTrace cfg (initState nm hs byz) events).2,
        hdr.author = nm) ∧
    (∀ r : Round, ((emittedHeaders (runTrace cfg (initState nm hs byz) events).2).filter
        (fun hdr => hdr.round == r)).length ≤ 1) := by
  refine ⟨?_, ?_, ?_⟩
  · intro e
    rw [runTrace_append]
    rcases step_emits cfg (runTrace cfg (initState nm hs byz) events).1 e with
      ⟨hown, _⟩ | ⟨_, hown, _⟩
    · exact ⟨[], by simp [runTrace_cons, runTrace, hown]⟩
    · exact ⟨[(runTrace cfg (initState nm hs byz) events).1.round],
        by simp [runTrace_cons, runTrace, hown]⟩
  · intro hdr hm
    exact run_authors cfg events (initState nm hs byz) hdr hm
  · intro r
    exact (run_round_invariant cfg r events (initState nm hs byz)).1

/-! ## Lemmas about Election.insert_vote -/

theorem insert_vote_decided (E : Election) (v : Vote) :
    (E.insert_vote v).decided = E.decided := rfl

theorem insert_vote_commit (E : Election) (v : Vote) :
    (E.insert_vote v).commit = E.commit := rfl

theorem insert_vote_proof_round (E : Election) (v : Vote) :
    (E.insert_vote v).proof_round = E.proof_round := rfl

/-- After inserting a vote, the tally of the vote's round exists. -/
theorem insert_vote_tally (E : Election) (v : Vote) :
    ∃ t, alookup (E.insert_vote v).tallies v.round = some t := by
  unfold Election.insert_vote
  cases halt : alookup E.tallies v.round with
  | none => exact ⟨_, alookup_aupsert_self _ _ _⟩
  | some t => exact ⟨_, alookup_aupsert_self _ _ _⟩

/-- `make_header` leaves `decided_elections` unchanged. -/
theorem makeHeader_decided_elections (cfg : Config) (s : ProposerState) :
    (makeHeader cfg s).state.decided_elections = s.decided_elections := by
  unfold makeHeader
  split <;> rfl

/-! ## C10: the decided_elections unwrap in the decision rule -/

/-- C10: when a vote completes a quorum of commits in an undecided election,
`process_vote` immediately evaluates
`self.decided_elections.get(&id).unwrap()` on the identifier returned by
`find_quorum_of_commits`; if that identifier is not a key of
`decided_elections`, the call panics — leaving the election undecided, the
round unchanged and nothing emitted — and `decided_elections` is populated
nowhere except `process_header`, which inserts `header.id ↦ false`
(`process_vote` and `make_header` never write it). -/
theorem C10_unwrap_panic (cfg : Config) (s : ProposerState) (v : Vote)
    (em : List (ElectionId × Election)) (E : Election) (id : Digest)
    (hb : s.byzantine = false)
    (hm : alookup s.elections v.proposal_round = some em)
    (he : alookup em v.election_id = some E)
    (hd : E.decided = false)
    (hq : (E.insert_vote v).find_quorum_of_commits cfg = some id)
    (hmiss : alookup s.decided_elections id = none) :
    (processVote cfg s v).panic = true ∧
    (processVote cfg s v).sent = [] ∧
    (processVote cfg s v).resetTimer = false ∧
    (processVote cfg s v).state.round = s.round ∧
    electionAt (processVote cfg s v).state v.proposal_round v.election_id
      = some (E.insert_vote v) ∧
    (E.insert_vote v).decided = false ∧
    (∀ (s' : ProposerState) (v' : Vote),
      (processVote cfg s' v').state.decided_elections = s'.decided_elections) ∧
    (∀ (s' : ProposerState) (h' : Header), s'.byzantine = false →
      (processHeader cfg s' h').state.decided_elections
        = aupsert s'.decided_elections h'.id false) ∧
    (∀ s' : ProposerState,
      (makeHeader cfg s').state.decided_elections = s'.decided_elections) := by
  obtain ⟨t, ht⟩ := insert_vote_tally E v
  have hred : processVote cfg s v =
      ⟨{ s with
         elections :=
           aupsert s.elections v.proposal_round
             (aupsert em v.election_id (E.insert_vote v)) },
        [], false, true⟩ := by
    simp only [processVote, hb, hm, he, hd, ht, hq, hmiss,
      Bool.false_eq_true, if_false]
  refine ⟨by rw [hred], by rw [hred], by rw [hred], by rw [hred], ?_,
    (insert_vote_decided E v).trans hd, ?_, ?_, ?_⟩
  · rw [hred]
    show electionAt _ v.proposal_round v.election_id = _
    unfold electionAt
    simp [alookup_aupsert_self]
  · exact fun s' v' => (processVote_frame cfg s' v').2.1
  · intro s' h' hb'
    rw [processHeader_not_byz cfg s' h' hb']
    exact (processHeaderBody_frame cfg s' h').2.2.2.2.2
  · exact fun s' => makeHeader_decided_elections cfg s'

/-- A shared concrete configuration with quorum threshold 1 (so a single
vote forms a quorum), unit stakes, four nodes. -/
def cfg1 : Config := ⟨fun _ => 1, 1, 4, fun _ _ _ => 0⟩

/-- A shared concrete proposer state with a single empty election `77` at
proposal round `5` and nothing decided. -/
def sW : ProposerState :=
  { initState 0 1 false with elections := [(5, [(77, Election.new)])] }

/-- A concrete commit vote for election `77` at proposal round `5`. -/
def vW : Vote := ⟨0, 9, 77, 5, true, 2, 99⟩

/-- C10 witness: the unwrap-panic theorem applied at a concrete vote that
completes a commit quorum whose identifier was never inserted by
`process_header`. -/
theorem C10_unwrap_panic_witness :
    (sW.byzantine = false ∧
      alookup sW.elections vW.proposal_round = some [(77, Election.new)] ∧
      alookup [(77, Election.new)] vW.election_id = some Election.new ∧
      Election.new.decided = false ∧
      (Election.new.insert_vote vW).find_quorum_of_commits cfg1 = some 9 ∧
      alookup sW.decided_elections 9 = none) ∧
    (processVote cfg1 sW vW).panic = true ∧
    (processVote cfg1 sW vW).sent = [] ∧
    (processVote cfg1 sW vW).state.round = sW.round := by
  refine ⟨⟨rfl, by decide, by decide, rfl, by decide, by decide⟩, ?_, ?_, ?_⟩
  · exact (C10_unwrap_panic cfg1 sW vW [(77, Election.new)] Election.new 9
      rfl (by decide) (by decide) rfl (by decide) (by decide)).1
  · exact (C10_unwrap_panic cfg1 sW vW [(77, Election.new)] Election.new 9
      rfl (by decide) (by decide) rfl (by decide) (by decide)).2.1
  · exact (C10_unwrap_panic cfg1 sW vW [(77, Election.new)] Election.new 9
      rfl (by decide) (by decide) rfl (by decide) (by decide)).2.2.2.1

/-- An association-list hit is a member of the list. -/
theorem alookup_mem {K V : Type} [DecidableEq K] :
    ∀ (l : List (K × V)) (k : K) (v : V), alookup l k = some v → (k, v) ∈ l := by
  intro l
  induction l with
  | nil => intro k v h; simp [alookup] at h
  | cons p rest ih =>
      intro k v h
      unfold alookup at h
      split at h
      · rename_i hk
        cases h
        subst hk
        exact List.mem_cons_self _ _
      · exact List.mem_cons_of_mem _ (ih k v h)

/-- If some element of the list maps to a `some`, `findSome?` finds one. -/
theorem findSome_isSome_of_mem {A B : Type} :
    ∀ (l : List A) (f : A → Option B) (a : A),
      a ∈ l → (f a).isSome → (l.findSome? f).isSome := by
  intro l
  induction l with
  | nil => intro f a ha; simp at ha
  | cons b rest ih =>
      intro f a ha hf
      rcases List.mem_cons.1 ha with h | h
      · subst h
        rw [List.findSome?_cons]
        cases hfa : f a with
        | none => rw [hfa] at hf; simp at hf
        | some x => simp
      · rw [List.findSome?_cons]
        cases hfb : f b with
        | none => exact ih f a h hf
        | some x => simp

/-- A quorum of commits in the tally of any single round makes the
election-level `find_quorum_of_commits` return a value. -/
theorem find_quorum_of_commits_of_round (cfg : Config) (E : Election)
    (r : Round) (t : Tally)
    (ht : alookup E.tallies r = some t)
    (hq : (t.find_quorum_of_commits cfg).isSome) :
    (E.find_quorum_of_commits cfg).isSome := by
  unfold Election.find_quorum_of_commits
  exact findSome_isSome_of_mem E.tallies _ (r, t) (alookup_mem E.tallies r t ht) hq

/-! ## C1: the decision rule -/

/-- A concrete undecided election state for the C1 counterexample: election
`70` at proposal round `4`, no key in `decided_elections`. -/
def sC1 : ProposerState :=
  { initState 0 1 false with elections := [(4, [(70, Election.new)])] }

/-- A concrete commit vote completing a quorum of commits (threshold 1) for
election `70` at its vote round `0`. -/
def vC1 : Vote := ⟨0, 8, 70, 4, true, 3, 90⟩

/-- C1 counterexample: the claim says that a vote completing a quorum of
commits in an undecided election makes `process_vote` set `decided`,
increment the round and reset the timer; at this concrete input the quorum
of commits exists at the vote's round, yet `process_vote` panics on the
`decided_elections` unwrap: the election stays undecided, the round stays
`0`, the timer is not reset. -/
theorem C1_decision_counterexample :
    ((alookup (Election.new.insert_vote vC1).tallies 0).map
        (fun t => t.find_quorum_of_commits cfg1)) = some (some 8) ∧
    Election.new.decided = false ∧
    (processVote cfg1 sC1 vC1).panic = true ∧
    (processVote cfg1 sC1 vC1).state.round = 0 ∧
    (processVote cfg1 sC1 vC1).resetTimer = false ∧
    (electionAt (processVote cfg1 sC1 vC1).state 4 70).map Election.decided
      = some false := by
  refine ⟨by decide, rfl, ?_, ?_, ?_, ?_⟩ <;> decide

/-- C1 (amended): when a vote `v` is inserted into an undecided election and
a quorum of commits then exists (so `find_quorum_of_commits` returns some
identifier), PROVIDED that identifier is a key of `decided_elections` with
value `false`, `process_vote` marks the election decided, increments the
proposer's round by exactly one, resets the header-delay timer, and returns
without emitting any vote or applying a further transition rule; and once an
election is decided, a `process_vote` call for it leaves the whole state
unchanged and emits nothing. The final conjunct connects the claim's
phrasing to the hypothesis: a commit quorum in the tally of round `v.round`
(or any round) makes `find_quorum_of_commits` return an identifier. -/
theorem C1_decision_rule (cfg : Config) (s : ProposerState) (v : Vote)
    (em : List (ElectionId × Election)) (E : Election) (id : Digest)
    (hb : s.byzantine = false)
    (hm : alookup s.elections v.proposal_round = some em)
    (he : alookup em v.election_id = some E)
    (hd : E.decided = false)
    (hq : (E.insert_vote v).find_quorum_of_commits cfg = some id)
    (hfound : alookup s.decided_elections id = some false) :
    (processVote cfg s v).state.round = s.round + 1 ∧
    (processVote cfg s v).resetTimer = true ∧
    (processVote cfg s v).sent = [] ∧
    (processVote cfg s v).panic = false ∧
    electionAt (processVote cfg s v).state v.proposal_round v.election_id
      = some { E.insert_vote v with decided := true } ∧
    (∀ (s' : ProposerState) (v' : Vote) (em' : List (ElectionId × Election))
        (E' : Election), s'.byzantine = false →
      alookup s'.elections v'.proposal_round = some em' →
      alookup em' v'.election_id = some E' → E'.decided = true →
      (processVote cfg s' v').state = s' ∧ (processVote cfg s' v').sent = []) ∧
    (∀ (E'' : Election) (r : Round) (t : Tally),
      alookup E''.tallies r = some t → (t.find_quorum_of_commits cfg).isSome →
      (E''.find_quorum_of_commits cfg).isSome) := by
  obtain ⟨t, ht⟩ := insert_vote_tally E v
  have hred : processVote cfg s v =
      ⟨{ { s with
           elections :=
             aupsert s.elections v.proposal_round
               (aupsert em v.election_id (E.insert_vote v)) } with
         round := s.round + 1
         elections :=
           aupsert
             (aupsert s.elections v.proposal_round
               (aupsert em v.election_id (E.insert_vote v)))
             v.proposal_round
             (aupsert (aupsert em v.election_id (E.insert_vote v)) v.election_id
               { E.insert_vote v with decided := true }) },
        [], true, false⟩ := by
    simp only [processVote, hb, hm, he, hd, ht, hq, hfound,
      Bool.false_eq_true, if_false, ProposerState.setElection]
  refine ⟨by rw [hred], by rw [hred], by rw [hred], by rw [hred], ?_, ?_, ?_⟩
  · rw [hred]
    unfold electionAt
    simp [alookup_aupsert_self]
  · intro s' v' em' E' hb' hm' he' hd'
    have : processVote cfg s' v' = finishVote s' v'.proposal_round v'.header_id [] := by
      simp only [processVote, hb', hm', he', hd', Bool.false_eq_true, if_false, if_true]
    rw [this]
    exact ⟨rfl, rfl⟩
  · exact fun E'' r t ht' hq' => find_quorum_of_commits_of_round cfg E'' r t ht' hq'

/-- A shared concrete decided-elections map for the C1 witness: the election
state of `sC1` together with the key the commit quorum returns. -/
def sC1w : ProposerState :=
  { initState 0 1 false with
    elections := [(4, [(70, Election.new)])]
    decided_elections := [(8, false)] }

/-- A decided election state for the second half of the C1 witness. -/
def sC1d : ProposerState :=
  { initState 0 1 false with
    elections := [(4, [(70, { Election.new with decided := true })])] }

/-- C1 witness: the amended decision theorem applied at a concrete commit
vote whose quorum identifier is mapped to `false`, and at a concrete decided
election. -/
theorem C1_decision_rule_witness :
    (sC1w.byzantine = false ∧
      (Election.new.insert_vote vC1).find_quorum_of_commits cfg1 = some 8 ∧
      alookup sC1w.decided_elections 8 = some false) ∧
    ((processVote cfg1 sC1w vC1).state.round = sC1w.round + 1 ∧
      (processVote cfg1 sC1w vC1).resetTimer = true ∧
      (processVote cfg1 sC1w vC1).sent = []) ∧
    ((processVote cfg1 sC1d vC1).state = sC1d ∧
      (processVote cfg1 sC1d vC1).sent = []) := by
  have h := C1_decision_rule cfg1 sC1w vC1 [(70, Election.new)] Election.new 8
    rfl (by decide) (by decide) rfl (by decide) (by decide)
  refine ⟨⟨rfl, by decide, by decide⟩, ⟨h.1, h.2.1, h.2.2.1⟩, ?_⟩
  exact h.2.2.2.2.2.1 sC1d vC1 [(70, { Election.new with decided := true })]
    { Election.new with decided := true } rfl (by decide) (by decide) rfl

/-! ## C2: the commit step -/

/-- An election already holding a commit-quorum vote for tx hash `8` by
author `3`, used by the C2 counterexample. -/
def eC2 : Election := Election.new.insert_vote ⟨0, 8, 77, 5, true, 3, 99⟩

/-- Proposer state for the C2 counterexample: election `77` at round `5`
holds a commit quorum for `8`, and `decided_elections` knows key `8`. -/
def sC2 : ProposerState :=
  { initState 0 1 false with
    elections := [(5, [(77, eC2)])]
    decided_elections := [(8, false)] }

/-- The non-commit vote of the C2 counterexample: with threshold 1 it forms
a quorum of non-commit votes for tx hash `9`. -/
def vC2 : Vote := ⟨0, 9, 77, 5, false, 2, 99⟩

/-- C2 counterexample: the claim's hypotheses hold at this input — the
election is undecided, a quorum of non-commit votes exists for `9` at the
vote's round, and the replica has not voted at round 1 — yet `process_vote`
does not set `E.commit` and broadcasts nothing, because a quorum of commits
for `8` also exists and the decision rule fires first. -/
theorem C2_commit_step_counterexample :
    eC2.decided = false ∧
    ((alookup (eC2.insert_vote vC2).tallies 0).map
        (fun t => t.find_quorum_of_votes cfg1)) = some (some 9) ∧
    (eC2.insert_vote vC2).voted_or_committed 0 1 = false ∧
    (processVote cfg1 sC2 vC2).sent = [] ∧
    (electionAt (processVote cfg1 sC2 vC2).state 5 77).map Election.commit
      = some none := by
  refine ⟨rfl, by decide, by decide, ?_, ?_⟩ <;> decide

/-- C2 (amended): for a vote `v` inserted into an undecided existing
election at round `r = v.round`, if NO quorum of commits exists (otherwise
the decision rule fires first), a quorum of non-commit votes exists for some
`x` at round `r`, and this replica has not yet voted or committed at round
`r+1`, then `process_vote` sets `E.commit = x` and `E.proof_round = r`,
creates the commit vote
`{round = r+1, tx_hash = x, election_id, proposal_round, commit = true,
author = self, header_id = v.header_id}`, inserts it into `E`'s tally, and
broadcasts it to the other primaries. -/
theorem C2_commit_step (cfg : Config) (s : ProposerState) (v : Vote)
    (em : List (ElectionId × Election)) (E : Election) (tally : Tally)
    (x : TxHash)
    (hb : s.byzantine = false)
    (hm : alookup s.elections v.proposal_round = some em)
    (he : alookup em v.election_id = some E)
    (hd : E.decided = false)
    (ht : alookup (E.insert_vote v).tallies v.round = some tally)
    (hnq : (E.insert_vote v).find_quorum_of_commits cfg = none)
    (hqv : tally.find_quorum_of_votes cfg = some x)
    (hnv : (E.insert_vote v).voted_or_committed s.name (v.round + 1) = false) :
    (processVote cfg s v).sent
      = [OutMsg.voteOthers ⟨v.round + 1, x, v.election_id, v.proposal_round,
          true, s.name, v.header_id⟩] ∧
    electionAt (processVote cfg s v).state v.proposal_round v.election_id
      = some (({ E.insert_vote v with
                 commit := some x
                 proof_round := some v.round }).insert_vote
          ⟨v.round + 1, x, v.election_id, v.proposal_round, true, s.name,
            v.header_id⟩) ∧
    (electionAt (processVote cfg s v).state v.proposal_round
        v.election_id).map Election.commit = some (some x) ∧
    (electionAt (processVote cfg s v).state v.proposal_round
        v.election_id).map Election.proof_round = some (some v.round) ∧
    (processVote cfg s v).resetTimer = false ∧
    (processVote cfg s v).state.round = s.round := by
  have hred : processVote cfg s v =
      finishVote
        (ProposerState.setElection
          { s with
            elections :=
              aupsert s.elections v.proposal_round
                (aupsert em v.election_id (E.insert_vote v)) }
          v.proposal_round (aupsert em v.election_id (E.insert_vote v))
          v.election_id
          (({ E.insert_vote v with
              commit := some x
              proof_round := some v.round }).insert_vote
            ⟨v.round + 1, x, v.election_id, v.proposal_round, true, s.name,
              v.header_id⟩))
        v.proposal_round v.header_id
        [OutMsg.voteOthers ⟨v.round + 1, x, v.election_id, v.proposal_round,
          true, s.name, v.header_id⟩] := by
    simp only [processVote, hb, hm, he, hd, ht, hnq, hqv, hnv,
      Bool.false_eq_true, if_false]
  have hel : electionAt (processVote cfg s v).state v.proposal_round v.election_id
      = some (({ E.insert_vote v with
                 commit := some x
                 proof_round := some v.round }).insert_vote
          ⟨v.round + 1, x, v.election_id, v.proposal_round, true, s.name,
            v.header_id⟩) := by
    rw [hred]
    unfold electionAt ProposerState.setElection finishVote
    simp [alookup_aupsert_self]
  refine ⟨by rw [hred]; rfl, hel, ?_, ?_, by rw [hred]; rfl, by rw [hred]; rfl⟩
  · rw [hel]
    simp [insert_vote_commit]
  · rw [hel]
    simp [insert_vote_proof_round]

/-- Proposer state for the C2 witness: a fresh election `77` at round 5. -/
def sC2w : ProposerState :=
  { initState 0 1 false with elections := [(5, [(77, Election.new)])] }

/-- C2 witness: the commit-step theorem applied at a concrete non-commit
vote that completes a quorum of votes for `9` with no commit quorum. -/
theorem C2_commit_step_witness :
    (sC2w.byzantine = false ∧
      (Election.new.insert_vote vC2).find_quorum_of_commits cfg1 = none ∧
      ((alookup (Election.new.insert_vote vC2).tallies 0).map
        (fun t => t.find_quorum_of_votes cfg1)) = some (some 9) ∧
      (Election.new.insert_vote vC2).voted_or_committed 0 1 = false) ∧
    (processVote cfg1 sC2w vC2).sent
      = [OutMsg.voteOthers ⟨1, 9, 77, 5, true, 0, 99⟩] ∧
    (electionAt (processVote cfg1 sC2w vC2).state 5 77).map Election.commit
      = some (some 9) := by
  have h := C2_commit_step cfg1 sC2w vC2 [(77, Election.new)] Election.new
    ⟨[(2, (9, false))], TimerState.Running⟩ 9
    rfl (by decide) (by decide) rfl (by decide) (by decide) (by decide) (by decide)
  exact ⟨⟨rfl, by decide, by decide, by decide⟩, h.1, h.2.2.1⟩

/-! ## C3: buffering of early votes -/

/-- A concrete vote for a proposal round whose header has not arrived. -/
def vC3 : Vote := ⟨0, 9, 77, 5, false, 2, 99⟩

/-- C3 counterexample: the claim says a vote whose election does not exist is
buffered, in particular when no header for its proposal round has arrived at
all; at this concrete input no header for round 5 has arrived
(`elections` has no round-5 entry), and `process_vote` returns with the
state completely unchanged — the vote is dropped, not buffered. -/
theorem C3_buffering_counterexample :
    alookup (initState 0 1 false).elections vC3.proposal_round = none ∧
    (processVote cfg1 (initState 0 1 false) vC3).state.pending_votes = [] ∧
    (processVote cfg1 (initState 0 1 false) vC3).state = initState 0 1 false ∧
    (processVote cfg1 (initState 0 1 false) vC3).sent = [] := by
  refine ⟨by decide, ?_, ?_, ?_⟩ <;> decide

/-- C3 (amended): a vote `v` is buffered into
`pending_votes[v.proposal_round]` only when the round's election map exists
(some header for that round has arrived) but has no entry for
`v.election_id`; when no header for `v.proposal_round` has arrived at all,
the vote is silently dropped. When a header for the round arrives,
`process_header` removes the round's buffer and re-processes each buffered
vote exactly once (a vote whose election is still missing is re-buffered). -/
theorem C3_buffering (cfg : Config) (s : ProposerState) (v : Vote)
    (em : List (ElectionId × Election)) (h : Header) (vs : List Vote)
    (hb : s.byzantine = false) :
    (alookup s.elections v.proposal_round = some em →
      alookup em v.election_id = none →
      (processVote cfg s v).state.pending_votes
        = aupsert s.pending_votes v.proposal_round
            (sinsert v ((alookup s.pending_votes v.proposal_round).getD [])) ∧
      (processVote cfg s v).state.elections = s.elections ∧
      (processVote cfg s v).sent = []) ∧
    (alookup s.elections v.proposal_round = none →
      processVote cfg s v = ⟨s, [], false, false⟩) ∧
    (alookup s.pending_votes h.round = some vs →
      processHeader cfg s h
        = processVotesList cfg
            { (headerCore s h).1 with
              pending_votes := aerase s.pending_votes h.round }
            vs (headerCore s h).2 false ∧
      (headerCore s h).1.pending_votes = s.pending_votes) := by
  refine ⟨?_, ?_, ?_⟩
  · intro hm he
    have hred : processVote cfg s v =
        finishVote
          { s with
            pending_votes :=
              aupsert s.pending_votes v.proposal_round
                (sinsert v ((alookup s.pending_votes v.proposal_round).getD [])) }
          v.proposal_round v.header_id [] := by
      simp only [processVote, hb, hm, he, Bool.false_eq_true, if_false]
    rw [hred]
    exact ⟨rfl, rfl, rfl⟩
  · intro hm
    simp only [processVote, hb, hm, Bool.false_eq_true, if_false]
  · intro hp
    have hpend := (headerCore_frame s h).2.2.1
    constructor
    · rw [processHeader_not_byz cfg s h hb]
      unfold processHeaderBody
      dsimp only
      rw [hpend, hp]
    · exact hpend

/-- Proposer state for the C3 witness, first part: round 5 has an election
map, but not for election `77`. -/
def sC3a : ProposerState :=
  { initState 0 1 false with elections := [(5, [])] }

/-- Proposer state for the C3 witness, third part: a vote buffered for
round 3. -/
def sC3b : ProposerState :=
  { initState 0 1 false with pending_votes := [(3, [⟨0, 9, 77, 3, false, 2, 99⟩])] }

/-- A concrete header for round 3 used by the C3 witness. -/
def hC3 : Header := ⟨3, 1, [], 55⟩

/-- C3 witness: the buffering theorem applied at a concrete vote whose round
map exists but whose election does not (the vote lands in `pending_votes`),
and at a concrete header arrival that drains the round's buffer. -/
theorem C3_buffering_witness :
    (sC3a.byzantine = false ∧
      alookup sC3a.elections vC3.proposal_round = some [] ∧
      alookup ([] : List (ElectionId × Election)) vC3.election_id = none) ∧
    (processVote cfg1 sC3a vC3).state.pending_votes = [(5, [vC3])] ∧
    (alookup sC3b.pending_votes hC3.round = some [⟨0, 9, 77, 3, false, 2, 99⟩] ∧
      processHeader cfg1 sC3b hC3
        = processVotesList cfg1
            { (headerCore sC3b hC3).1 with
              pending_votes := aerase sC3b.pending_votes hC3.round }
            [⟨0, 9, 77, 3, false, 2, 99⟩] (headerCore sC3b hC3).2 false) := by
  have h1 := ((C3_buffering cfg1 sC3a vC3 [] hC3 [] rfl).1 (by decide) (by decide)).1
  have h3 := (C3_buffering cfg1 sC3b vC3 [] hC3
    [⟨0, 9, 77, 3, false, 2, 99⟩] rfl).2.2 (by decide)
  refine ⟨⟨rfl, by decide, by decide⟩, ?_, ⟨by decide, h3.1⟩⟩
  rw [h1]
  decide

